import Mathlib

/-!
Verification of the identity-strategy injection plugin (src/main.py).

The development shallowly embeds the configuration data as JSON-like values
(Python dicts, lists, strings, ints, bools, None), embeds the Python string
and truthiness primitives the source relies on, and then translates each
function of src/main.py into a Lean definition:

  - _decode_json_obj_from_str  -> decodeJsonObjFromStr (with a model of the
    Python json module: loads and dumps over JsonVal)
  - _as_obj / _as_list_of_obj  -> asObj / asListOfObj
  - IdentityGuard._match_binding -> matchBinding
  - IdentityGuard._find_strategy -> findStrategy
  - IdentityGuard._build_injection -> buildInjection
  - IdentityGuard.inject_guard -> injectGuard

Fallible Python operations (attribute access on a wrongly typed value,
iteration over a non-iterable) are embedded in the Except monad with an
explicit error-kind type mirroring the exception classes the source catches.
Logging is a side effect outside the model and is dropped.
-/

/-- JsonVal models the values that appear in the decoded plugin
configuration: Python dicts with string keys, lists, strings, ints, bools
and None.  Python None is JsonVal.null.  Float literals are outside the
model (the plugin configuration never requires them). -/
inductive JsonVal where
  | null : JsonVal
  | bool (b : Bool) : JsonVal
  | num (n : Int) : JsonVal
  | str (s : String) : JsonVal
  | arr (elems : List JsonVal) : JsonVal
  | obj (entries : List (String × JsonVal)) : JsonVal

/-- PyDict models a Python dict with string keys, as an association list in
insertion order (Python dicts preserve insertion order and have unique keys;
lookup takes the first matching entry). -/
abbrev PyDict := List (String × JsonVal)

/-- PyErr models the exception classes that src/main.py interacts with.
The source catches (KeyError, TypeError, AttributeError); valueError stands
for every exception class outside that tuple, so that the catch clauses of
the embedding are meaningfully partial. -/
inductive PyErr where
  | keyError : PyErr
  | typeError : PyErr
  | attrError : PyErr
  | valueError : PyErr
deriving DecidableEq

/-- dictGet models Python d.get(k): the value stored at k, or None when the
key is absent. -/
def dictGet (d : PyDict) (k : String) : JsonVal :=
  match d.find? (fun p => p.1 = k) with
  | some p => p.2
  | none => JsonVal.null

/-- dictGetD models Python d.get(k, dflt). -/
def dictGetD (d : PyDict) (k : String) (dflt : JsonVal) : JsonVal :=
  match d.find? (fun p => p.1 = k) with
  | some p => p.2
  | none => dflt

/-- pyWs holds for the ASCII whitespace characters removed by the Python
str.strip method. -/
def pyWs (c : Char) : Bool :=
  c = ' ' || c = '\t' || c = '\n' || c = '\r' || c = '\x0b' || c = '\x0c'

/-- pyStripChars removes leading and trailing whitespace from a character
list, modelling str.strip on the underlying characters. -/
def pyStripChars (l : List Char) : List Char :=
  ((l.dropWhile pyWs).reverse.dropWhile pyWs).reverse

/-- pyStrip models the Python str.strip method (whitespace on both ends). -/
def pyStrip (s : String) : String :=
  String.mk (pyStripChars s.data)

/-- pyLower models the Python str.lower method characterwise (the
configuration strings involved are ASCII). -/
def pyLower (s : String) : String :=
  String.mk (s.data.map Char.toLower)

/-- pyTruthy models Python truthiness (bool(x)) on configuration values:
None, False, 0, empty string, empty list and empty dict are falsy. -/
def pyTruthy : JsonVal → Bool
  | JsonVal.null => false
  | JsonVal.bool b => b
  | JsonVal.num n => n != 0
  | JsonVal.str s => !(s == "")
  | JsonVal.arr xs => !xs.isEmpty
  | JsonVal.obj kvs => !kvs.isEmpty

/-- pyOr models the Python expression (a or b): a when a is truthy,
otherwise b. -/
def pyOr (a b : JsonVal) : JsonVal :=
  if pyTruthy a then a else b

/-- natChars renders a natural number in decimal, modelling the digits of
the Python str() conversion of a non-negative int. -/
def natChars (n : Nat) : List Char :=
  if n < 10 then [Char.ofNat (48 + n)]
  else natChars (n / 10) ++ [Char.ofNat (48 + n % 10)]
decreasing_by exact Nat.div_lt_self (by omega) (by omega)

/-- intChars renders an Int in decimal, modelling str() on a Python int and
the way the json module serializes ints. -/
def intChars (n : Int) : List Char :=
  if n < 0 then '-' :: natChars (-n).toNat else natChars n.toNat

mutual
/-- pyReprChars models the Python repr() of a configuration value, used by
str() on lists and dicts.  String escaping inside repr is simplified (the
quotes are always single quotes and inner characters are kept verbatim);
no claim evaluates repr on a string containing quotes. -/
def pyReprChars : JsonVal → List Char
  | JsonVal.null => ['N', 'o', 'n', 'e']
  | JsonVal.bool true => ['T', 'r', 'u', 'e']
  | JsonVal.bool false => ['F', 'a', 'l', 's', 'e']
  | JsonVal.num n => intChars n
  | JsonVal.str s => '\'' :: s.data ++ ['\'']
  | JsonVal.arr xs => '[' :: pyReprItems xs ++ [']']
  | JsonVal.obj kvs => '\x7b' :: pyReprFields kvs ++ ['\x7d']

/-- pyReprItems renders list elements separated by a comma and a space. -/
def pyReprItems : List JsonVal → List Char
  | [] => []
  | [x] => pyReprChars x
  | x :: y :: rest => pyReprChars x ++ ',' :: ' ' :: pyReprItems (y :: rest)

/-- pyReprFields renders dict entries separated by a comma and a space. -/
def pyReprFields : List (String × JsonVal) → List Char
  | [] => []
  | [p] => '\'' :: p.1.data ++ '\'' :: ':' :: ' ' :: pyReprChars p.2
  | p :: q :: rest =>
      '\'' :: p.1.data ++ '\'' :: ':' :: ' ' :: pyReprChars p.2
        ++ ',' :: ' ' :: pyReprFields (q :: rest)
end

/-- pyStr models the Python str() conversion on configuration values. -/
def pyStr : JsonVal → String
  | JsonVal.str s => s
  | JsonVal.null => "None"
  | JsonVal.bool true => "True"
  | JsonVal.bool false => "False"
  | JsonVal.num n => String.mk (intChars n)
  | JsonVal.arr xs => String.mk (pyReprChars (JsonVal.arr xs))
  | JsonVal.obj kvs => String.mk (pyReprChars (JsonVal.obj kvs))

mutual
/-- pyEq models the Python equality operator on configuration values.
Python bools compare equal to the matching ints; dict equality is modelled
on entry lists in order (Python dict equality ignores order, but no claim
compares dicts whose key order differs). -/
def pyEq : JsonVal → JsonVal → Bool
  | JsonVal.null, JsonVal.null => true
  | JsonVal.bool a, JsonVal.bool b => a == b
  | JsonVal.bool a, JsonVal.num n => (if a then (1 : Int) else 0) == n
  | JsonVal.num n, JsonVal.bool b => n == (if b then (1 : Int) else 0)
  | JsonVal.num a, JsonVal.num b => a == b
  | JsonVal.str a, JsonVal.str b => a == b
  | JsonVal.arr a, JsonVal.arr b => pyEqList a b
  | JsonVal.obj a, JsonVal.obj b => pyEqFields a b
  | _, _ => false

/-- pyEqList compares two Python lists elementwise. -/
def pyEqList : List JsonVal → List JsonVal → Bool
  | [], [] => true
  | a :: as', b :: bs' => pyEq a b && pyEqList as' bs'
  | _, _ => false

/-- pyEqFields compares two dict entry lists elementwise. -/
def pyEqFields : List (String × JsonVal) → List (String × JsonVal) → Bool
  | [], [] => true
  | p :: ps, q :: qs => (p.1 == q.1 && pyEq p.2 q.2) && pyEqFields ps qs
  | _, _ => false
end

/-- pyIter models Python iteration (for x in v): lists yield their elements,
strings yield their characters as one-character strings, dicts yield their
keys; None, bools and ints raise TypeError. -/
def pyIter : JsonVal → Except PyErr (List JsonVal)
  | JsonVal.arr xs => Except.ok xs
  | JsonVal.str s => Except.ok (s.data.map (fun c => JsonVal.str (String.mk [c])))
  | JsonVal.obj kvs => Except.ok (kvs.map (fun p => JsonVal.str p.1))
  | _ => Except.error PyErr.typeError

/-- pyStripAttr models calling the strip method on a value: it succeeds on
strings and raises AttributeError on every other type, exactly as the
Python expression (v).strip() does. -/
def pyStripAttr : JsonVal → Except PyErr String
  | JsonVal.str s => Except.ok (pyStrip s)
  | _ => Except.error PyErr.attrError

/-- hexDigitChar renders a hex digit in lowercase, as the json module does
inside escape sequences. -/
def hexDigitChar (m : Nat) : Char :=
  if m < 10 then Char.ofNat (48 + m) else Char.ofNat (87 + m)

/-- escChar is the escape applied by json.dumps to one character of a
string: quote, backslash and the named control characters get two-character
escapes, the remaining control characters get a four-digit unicode escape,
everything else is kept verbatim (the ensure_ascii treatment of non-ASCII
characters is a transport detail the model omits: both encodings denote the
same string and json.loads accepts either). -/
def escChar (c : Char) : List Char :=
  if c = '"' then ['\\', '"']
  else if c = '\\' then ['\\', '\\']
  else if c = '\n' then ['\\', 'n']
  else if c = '\t' then ['\\', 't']
  else if c = '\r' then ['\\', 'r']
  else if c = '\x08' then ['\\', 'b']
  else if c = '\x0c' then ['\\', 'f']
  else if c.toNat < 32 then
    ['\\', 'u', '0', '0', hexDigitChar (c.toNat / 16), hexDigitChar (c.toNat % 16)]
  else [c]

/-- escChars escapes every character of a string body. -/
def escChars : List Char → List Char
  | [] => []
  | c :: cs => escChar c ++ escChars cs

mutual
/-- dumpChars models json.dumps with the default separators (a comma plus a
space between items, a colon plus a space after keys). -/
def dumpChars : JsonVal → List Char
  | JsonVal.null => ['n', 'u', 'l', 'l']
  | JsonVal.bool true => ['t', 'r', 'u', 'e']
  | JsonVal.bool false => ['f', 'a', 'l', 's', 'e']
  | JsonVal.num n => intChars n
  | JsonVal.str s => '"' :: escChars s.data ++ ['"']
  | JsonVal.arr [] => ['[', ']']
  | JsonVal.arr (x :: xs) => '[' :: (dumpChars x ++ dumpItems xs) ++ [']']
  | JsonVal.obj [] => ['\x7b', '\x7d']
  | JsonVal.obj (p :: ps) => '\x7b' :: (dumpField p ++ dumpFields ps) ++ ['\x7d']

/-- dumpItems renders the remaining array items, each preceded by a comma
and a space. -/
def dumpItems : List JsonVal → List Char
  | [] => []
  | x :: xs => ',' :: ' ' :: dumpChars x ++ dumpItems xs

/-- dumpField renders one object entry as a quoted key, a colon, a space
and the value. -/
def dumpField : String × JsonVal → List Char
  | (k, v) => '"' :: escChars k.data ++ '"' :: ':' :: ' ' :: dumpChars v

/-- dumpFields renders the remaining object entries, each preceded by a
comma and a space. -/
def dumpFields : List (String × JsonVal) → List Char
  | [] => []
  | p :: ps => ',' :: ' ' :: dumpField p ++ dumpFields ps
end

/-- dumps models json.dumps as a String producer. -/
def dumps (j : JsonVal) : String :=
  String.mk (dumpChars j)

/-- jsonWs holds for the four whitespace characters json.loads skips
between tokens. -/
def jsonWs (c : Char) : Bool :=
  c = ' ' || c = '\t' || c = '\n' || c = '\r'

/-- skipWs drops leading JSON whitespace. -/
def skipWs (l : List Char) : List Char :=
  l.dropWhile jsonWs

/-- isHexDigit recognizes the characters allowed in a unicode escape. -/
def isHexDigit (c : Char) : Bool :=
  c.isDigit || ('a' ≤ c && c ≤ 'f') || ('A' ≤ c && c ≤ 'F')

/-- hexVal is the numeric value of a hex digit character. -/
def hexVal (c : Char) : Nat :=
  if c.isDigit then c.toNat - 48
  else if 'a' ≤ c && c ≤ 'f' then c.toNat - 87
  else c.toNat - 55

/-- parseStrBody consumes the body of a JSON string literal after its
opening quote, decoding escapes, up to and including the closing quote;
it rejects unescaped control characters as json.loads does in strict
mode. -/
def parseStrBody : List Char → Option (List Char × List Char)
  | [] => none
  | c :: r =>
    if c = '"' then some ([], r)
    else if c = '\\' then
      match r with
      | [] => none
      | e :: r2 =>
        if e = '"' then (parseStrBody r2).map (fun p => ('"' :: p.1, p.2))
        else if e = '\\' then (parseStrBody r2).map (fun p => ('\\' :: p.1, p.2))
        else if e = '/' then (parseStrBody r2).map (fun p => ('/' :: p.1, p.2))
        else if e = 'b' then (parseStrBody r2).map (fun p => ('\x08' :: p.1, p.2))
        else if e = 'f' then (parseStrBody r2).map (fun p => ('\x0c' :: p.1, p.2))
        else if e = 'n' then (parseStrBody r2).map (fun p => ('\n' :: p.1, p.2))
        else if e = 'r' then (parseStrBody r2).map (fun p => ('\r' :: p.1, p.2))
        else if e = 't' then (parseStrBody r2).map (fun p => ('\t' :: p.1, p.2))
        else if e = 'u' then
          match r2 with
          | h1 :: h2 :: h3 :: h4 :: r3 =>
            if isHexDigit h1 && isHexDigit h2 && isHexDigit h3 && isHexDigit h4 then
              (parseStrBody r3).map (fun p =>
                (Char.ofNat (((hexVal h1 * 16 + hexVal h2) * 16 + hexVal h3) * 16 + hexVal h4)
                  :: p.1, p.2))
            else none
          | _ => none
        else none
    else if c.toNat < 32 then none
    else (parseStrBody r).map (fun p => (c :: p.1, p.2))

/-- digitsToNat folds a digit string into the natural number it denotes. -/
def digitsToNat (l : List Char) : Nat :=
  l.foldl (fun a c => a * 10 + (c.toNat - 48)) 0

/-- parseNatPart consumes a nonempty run of decimal digits. -/
def parseNatPart (l : List Char) : Option (Nat × List Char) :=
  let ds := l.takeWhile Char.isDigit
  if ds.isEmpty then none else some (digitsToNat ds, l.dropWhile Char.isDigit)

/-- parseNumToken consumes an integer literal (an optional minus sign and
digits).  Fraction and exponent forms produce Python floats, which are
outside the model. -/
def parseNumToken : List Char → Option (JsonVal × List Char)
  | [] => none
  | c :: r =>
    if c = '-' then (parseNatPart r).map (fun p => (JsonVal.num (-(p.1 : Int)), p.2))
    else (parseNatPart (c :: r)).map (fun p => (JsonVal.num ((p.1 : Int)), p.2))

mutual
/-- parseVal is the recursive-descent value parser behind the model of
json.loads.  The Nat argument is recursion fuel; loads supplies enough fuel
for any input of its length, so the fuel never changes the semantics. -/
def parseVal : Nat → List Char → Option (JsonVal × List Char)
  | 0, _ => none
  | fuel + 1, l =>
    match skipWs l with
    | [] => none
    | c :: r =>
      if c = '\x7b' then
        match skipWs r with
        | [] => none
        | c2 :: r2 =>
          if c2 = '\x7d' then some (JsonVal.obj [], r2)
          else
            match parseFields fuel (c2 :: r2) with
            | some (ps, r3) => some (JsonVal.obj ps, r3)
            | none => none
      else if c = '[' then
        match skipWs r with
        | [] => none
        | c2 :: r2 =>
          if c2 = ']' then some (JsonVal.arr [], r2)
          else
            match parseItems fuel (c2 :: r2) with
            | some (vs, r3) => some (JsonVal.arr vs, r3)
            | none => none
      else if c = '"' then
        match parseStrBody r with
        | some (cs, r2) => some (JsonVal.str (String.mk cs), r2)
        | none => none
      else if c = 't' then
        if r.take 3 = ['r', 'u', 'e'] then some (JsonVal.bool true, r.drop 3) else none
      else if c = 'f' then
        if r.take 4 = ['a', 'l', 's', 'e'] then some (JsonVal.bool false, r.drop 4) else none
      else if c = 'n' then
        if r.take 3 = ['u', 'l', 'l'] then some (JsonVal.null, r.drop 3) else none
      else parseNumToken (c :: r)

/-- parseItems parses the items of a nonempty array, consuming the closing
bracket. -/
def parseItems : Nat → List Char → Option (List JsonVal × List Char)
  | 0, _ => none
  | fuel + 1, l =>
    match parseVal fuel l with
    | none => none
    | some (v, r) =>
      match skipWs r with
      | [] => none
      | c :: r2 =>
        if c = ']' then some ([v], r2)
        else if c = ',' then
          match parseItems fuel (skipWs r2) with
          | some (vs, r3) => some (v :: vs, r3)
          | none => none
        else none

/-- parseFields parses the entries of a nonempty object, consuming the
closing brace. -/
def parseFields : Nat → List Char → Option (List (String × JsonVal) × List Char)
  | 0, _ => none
  | fuel + 1, l =>
    match skipWs l with
    | [] => none
    | c :: r =>
      if c = '"' then
        match parseStrBody r with
        | none => none
        | some (kcs, r2) =>
          match skipWs r2 with
          | [] => none
          | c2 :: r3 =>
            if c2 = ':' then
              match parseVal fuel (skipWs r3) with
              | none => none
              | some (v, r4) =>
                match skipWs r4 with
                | [] => none
                | c3 :: r5 =>
                  if c3 = '\x7d' then some ([(String.mk kcs, v)], r5)
                  else if c3 = ',' then
                    match parseFields fuel (skipWs r5) with
                    | some (ps, r6) => some ((String.mk kcs, v) :: ps, r6)
                    | none => none
                  else none
            else none
      else none
end

/-- loads models json.loads: parse one value, allow trailing whitespace,
fail on anything else left over.  The fuel is sized so that it can never
run out on an input of this length. -/
def loads (s : String) : Option JsonVal :=
  match parseVal (2 * s.data.length + 2) s.data with
  | some (v, rest) => if skipWs rest = [] then some v else none
  | none => none

/-- decodeLoop is the bounded decode loop of _decode_json_obj_from_str,
with one Nat of fuel per loop round.  A parsed dict is returned; a parsed
string is stripped and fed to the next round; any other parsed value
aborts with None (after a warning in the source).  When direct parsing
fails, the current string is wrapped in quotes and parsed as an escaped
JSON string literal to remove one escape layer, which also consumes a
round; an empty unescaped result aborts.  Exhausted rounds return None
(after a warning in the source). -/
def decodeLoop : Nat → String → Option PyDict
  | 0, _ => none
  | rounds + 1, cur =>
    match loads cur with
    | some (JsonVal.obj kvs) => some kvs
    | some (JsonVal.str t) => decodeLoop rounds (pyStrip t)
    | some _ => none
    | none =>
      match loads ("\"" ++ cur ++ "\"") with
      | some (JsonVal.str u) =>
        let c := pyStrip u
        if c = "" then none else decodeLoop rounds c
      | _ => none

/-- decodeJsonObjFromStr models _decode_json_obj_from_str: strip the input,
refuse an empty string, then run at most maxRounds decode rounds. -/
def decodeJsonObjFromStr (s : String) (maxRounds : Nat) : Option PyDict :=
  let cur := pyStrip s
  if cur = "" then none else decodeLoop maxRounds cur

/-- asObj models _as_obj: dicts pass through, strings go through the
tolerant decoder with two rounds, anything else is rejected with a
warning. -/
def asObj : JsonVal → Option PyDict
  | JsonVal.obj kvs => some kvs
  | JsonVal.str s => decodeJsonObjFromStr s 2
  | _ => none

/-- asListOfObjGo is the accumulation loop of _as_list_of_obj: convert each
item, keep the successes in order, skip the failures with a warning. -/
def asListOfObjGo : List JsonVal → List PyDict
  | [] => []
  | it :: rest =>
    match asObj it with
    | some o => o :: asListOfObjGo rest
    | none => asListOfObjGo rest

/-- asListOfObj models _as_list_of_obj: a non-list input yields the empty
list, a list input is converted itemwise. -/
def asListOfObj : JsonVal → List PyDict
  | JsonVal.arr xs => asListOfObjGo xs
  | _ => []

/-- Event models the identity facts the adapter methods _get_platform,
_get_sender_id and _get_group_id read off the host message event.  Those
accessors return str(value) of the first accessor strategy that yields a
value and the empty string when every strategy fails, so each fact is an
arbitrary string here; the opaque host event object itself stays outside
the model. -/
structure Event where
  platform : String
  senderId : String
  groupId : String

/-- Engine models the state an IdentityGuard instance builds in its
constructor from the host configuration. -/
structure Engine where
  strategies : List PyDict
  bindings : List PyDict
  defaultKey : String
  enabled : Bool
  debugLog : Bool

/-- engineInit models the field initialization in IdentityGuard.__init__
(config.get with defaults, _as_list_of_obj on the two list fields,
str().strip() on the default key, bool() on the flags). -/
def engineInit (config : PyDict) : Engine :=
  { strategies := asListOfObj (dictGetD config "strategies" (JsonVal.arr []))
    bindings := asListOfObj (dictGetD config "bindings" (JsonVal.arr []))
    defaultKey :=
      pyStrip (pyStr (pyOr (dictGetD config "default_strategy_key" (JsonVal.str ""))
        (JsonVal.str "")))
    enabled := pyTruthy (dictGetD config "enabled" (JsonVal.bool true))
    debugLog := pyTruthy (dictGetD config "debug_log" (JsonVal.bool false)) }

/-- bindingTry is the body of the per-binding try block inside
_match_binding: compute the stripped platform filter, skip on a platform
mismatch, normalize scope and target ids, then test the three scope rules
in order.  Except.ok (some k) means a return with strategy key k (any
value, defaulting to an empty string), Except.ok none means the loop
continues, Except.error means the binding raised and is skipped with a
warning. -/
def bindingTry (b : PyDict) (platform senderId groupId : String) :
    Except PyErr (Option JsonVal) := do
  let bPlatform ← pyStripAttr (pyOr (dictGet b "platform") (JsonVal.str ""))
  if bPlatform ≠ "" && bPlatform ≠ platform then
    return none
  else
    let scopeRaw ← pyStripAttr (pyOr (dictGet b "scope") (JsonVal.str "all"))
    let scope := pyLower scopeRaw
    let rawIds ← pyIter (pyOr (dictGet b "target_ids") (JsonVal.arr []))
    let ids := rawIds.map (fun x => pyStrip (pyStr x))
    if scope = "group" && groupId ≠ "" && ids.contains groupId then
      return some (dictGetD b "strategy_key" (JsonVal.str ""))
    else if scope = "private" && senderId ≠ "" && ids.contains senderId then
      return some (dictGetD b "strategy_key" (JsonVal.str ""))
    else if scope = "all" && ids.isEmpty then
      return some (dictGetD b "strategy_key" (JsonVal.str ""))
    else
      return none

/-- matchBindingGo is the binding scan loop of _match_binding: first match
wins, a raised binding is logged and skipped, and the configured default
key is returned when the scan ends without a match. -/
def matchBindingGo (dflt : String) (platform senderId groupId : String) :
    List PyDict → JsonVal
  | [] => JsonVal.str dflt
  | b :: rest =>
    match bindingTry b platform senderId groupId with
    | Except.ok (some key) => key
    | Except.ok none => matchBindingGo dflt platform senderId groupId rest
    | Except.error _ => matchBindingGo dflt platform senderId groupId rest

/-- matchBinding models _match_binding: strip the three identity facts,
then scan the bindings in configured order. -/
def matchBinding (bindings : List PyDict) (dflt : String)
    (platform senderId groupId : String) : JsonVal :=
  matchBindingGo dflt (pyStrip platform) (pyStrip senderId) (pyStrip groupId) bindings

/-- findStrategyGo is the linear scan of _find_strategy: the first entry
whose key equals the argument and whose enabled field (default True) is
truthy wins.  The try clause around the test cannot raise on dict entries
(get never raises and the comparison is total), so the scan is total. -/
def findStrategyGo (key : JsonVal) : List PyDict → Option PyDict
  | [] => none
  | s :: rest =>
    if pyEq (dictGet s "key") key && pyTruthy (dictGetD s "enabled" (JsonVal.bool true)) then
      some s
    else findStrategyGo key rest

/-- findStrategy models _find_strategy: a falsy key or the literal
sentinel __empty__ resolves to None immediately, otherwise the strategies
are scanned in order. -/
def findStrategy (strategies : List PyDict) (key : JsonVal) : Option PyDict :=
  if !pyTruthy key || pyEq key (JsonVal.str "__empty__") then none
  else findStrategyGo key strategies

/-- buildInjection models _build_injection: trim the special id list, pick
the special message when the sender id is truthy and listed, otherwise the
general message, trimming the chosen message.  The string operations raise
(and the result is an error) when the corresponding field holds a truthy
value of the wrong type. -/
def buildInjection (s : PyDict) (senderId : String) :
    Except PyErr (String × String) := do
  let rawIds ← pyIter (pyOr (dictGet s "special_ids") (JsonVal.arr []))
  let specialIds := rawIds.map (fun x => pyStrip (pyStr x))
  if senderId ≠ "" && specialIds.contains senderId then
    let m ← pyStripAttr (pyOr (dictGet s "message_for_special") (JsonVal.str ""))
    return (m, "special")
  else
    let m ← pyStripAttr (pyOr (dictGet s "message_for_others") (JsonVal.str ""))
    return (m, "general")

/-- modeOf models the mode normalization in inject_guard:
(strategy.get("mode") or "prepend").strip().lower(). -/
def modeOf (strategy : PyDict) : Except PyErr String := do
  let m ← pyStripAttr (pyOr (dictGet strategy "mode") (JsonVal.str "prepend"))
  return (pyLower m)

/-- applyMode is the prompt rewrite at the end of inject_guard: append adds
the text after the prompt, every other mode value prepends it. -/
def applyMode (mode : String) (prompt text : String) : String :=
  if mode = "append" then prompt ++ "\n" ++ text else text ++ "\n" ++ prompt

/-- injectGuardTry is the body of the try block of inject_guard.  The
request prompt is passed in as an Option String (Python None or a string)
and the returned Option String is its value after the block: the paths
that return early leave it untouched, the injection path normalizes None
to an empty string and then writes the rewritten prompt. -/
def injectGuardTry (eng : Engine) (ev : Event) (prompt : Option String) :
    Except PyErr (Option String) :=
  match findStrategy eng.strategies
      (matchBinding eng.bindings eng.defaultKey ev.platform ev.senderId ev.groupId) with
  | none => pure prompt
  | some strategy => do
    let ti ← buildInjection strategy ev.senderId
    if ti.1 = "" then
      return prompt
    else do
      let mode ← modeOf strategy
      let p := prompt.getD ""
      return some (applyMode mode p ti.1)

/-- injectGuard models the inject_guard hook around its try block: a
disabled engine returns at once, and the except clause swallows exactly
KeyError, TypeError and AttributeError, leaving the prompt as it was;
every other exception class would propagate to the host. -/
def injectGuard (eng : Engine) (ev : Event) (prompt : Option String) :
    Except PyErr (Option String) :=
  if !eng.enabled then Except.ok prompt
  else
    match injectGuardTry eng ev prompt with
    | Except.ok p => Except.ok p
    | Except.error e =>
      if e = PyErr.keyError || e = PyErr.typeError || e = PyErr.attrError then
        Except.ok prompt
      else Except.error e

/-- asListOfObjGo keeps exactly the items that decode to dicts, in input
order. -/
theorem asListOfObjGo_eq_filterMap (xs : List JsonVal) :
    asListOfObjGo xs = xs.filterMap asObj := by
  induction xs with
  | nil => rfl
  | cons it rest ih =>
    cases h : asObj it <;> simp [asListOfObjGo, h, ih]

/-- C9: the list decoder never raises (it is a total function by
construction); a non-list input returns the empty list, and a list input
returns exactly the elements that decode to objects, in their original
input order, skipping failed elements — its length equals the number of
successfully decodable elements. -/
theorem asListOfObj_total_and_complete (v : JsonVal) :
    asListOfObj v = (match v with
      | JsonVal.arr xs => xs.filterMap asObj
      | _ => []) ∧
    (asListOfObj v).length = (match v with
      | JsonVal.arr xs => xs.countP (fun it => (asObj it).isSome)
      | _ => 0) := by
  cases v <;>
    simp [asListOfObj, asListOfObjGo_eq_filterMap, List.length_filterMap_eq_countP]

/-- C10: the sentinel key __empty__ short-circuits _find_strategy to None
for every strategy store, even one that contains an enabled strategy whose
key field is the literal string __empty__. -/
theorem findStrategy_sentinel_unreachable (ss : List PyDict) :
    findStrategy ss (JsonVal.str "__empty__") = none := by
  simp [findStrategy, pyEq]

/-- findStrategyGo is the first-match linear scan. -/
theorem findStrategyGo_eq_find? (key : JsonVal) (ss : List PyDict) :
    findStrategyGo key ss = ss.find? (fun s =>
      pyEq (dictGet s "key") key &&
      pyTruthy (dictGetD s "enabled" (JsonVal.bool true))) := by
  induction ss with
  | nil => rfl
  | cons s rest ih =>
    by_cases h :
        (pyEq (dictGet s "key") key &&
          pyTruthy (dictGetD s "enabled" (JsonVal.bool true))) = true <;>
      simp [findStrategyGo, List.find?_cons, h, ih]

/-- C5: on a string key, _find_strategy returns None immediately when the
key is empty or is the sentinel, and otherwise returns the first strategy
in list order whose key field equals the argument and whose enabled field
(default True when absent) is truthy; None when no such entry exists, so a
key referencing only disabled or missing strategies resolves to no
injection. -/
theorem findStrategy_first_enabled_match (ss : List PyDict) (k : String) :
    findStrategy ss (JsonVal.str k) =
      if k = "" ∨ k = "__empty__" then none
      else ss.find? (fun s =>
        pyEq (dictGet s "key") (JsonVal.str k) &&
        pyTruthy (dictGetD s "enabled" (JsonVal.bool true))) := by
  have h2 : pyEq (JsonVal.str k) (JsonVal.str "__empty__") = (k == "__empty__") := by
    simp [pyEq]
  by_cases hk : k = ""
  · subst hk
    simp [findStrategy, pyTruthy]
  · by_cases he : k = "__empty__"
    · subst he
      simp [findStrategy, pyEq]
    · simp [findStrategy, pyTruthy, h2, hk, he, findStrategyGo_eq_find?]

/-- okStrField holds when a configuration field value survives the idiom
(value or dflt).strip(): it is a string, or it is falsy (so the string
default is used). -/
def okStrField : JsonVal → Bool
  | JsonVal.str _ => true
  | v => !pyTruthy v

/-- okListField holds when a configuration field value survives the idiom
(value or []) followed by list iteration: it is a list, or it is falsy. -/
def okListField : JsonVal → Bool
  | JsonVal.arr _ => true
  | v => !pyTruthy v

/-- WFBinding states that one binding dict is well typed in the sense the
claim about binding resolution presumes: platform and scope are strings or
absent-like, target_ids is a list or absent-like.  The strategy_key value
is unconstrained (the source returns it as-is). -/
def WFBinding (b : PyDict) : Prop :=
  okStrField (dictGet b "platform") = true ∧
  okStrField (dictGet b "scope") = true ∧
  okListField (dictGet b "target_ids") = true

/-- strField_cases: a well-typed string field, after the (v or d) default,
is some string. -/
theorem strField_cases {v : JsonVal} (d : String) (h : okStrField v = true) :
    ∃ s, pyOr v (JsonVal.str d) = JsonVal.str s := by
  cases v with
  | str s =>
    by_cases hs : s = "" <;> simp [pyOr, pyTruthy, hs]
  | null => exact ⟨d, rfl⟩
  | bool b => cases b <;> simp_all [okStrField, pyTruthy, pyOr]
  | num n =>
    have : n = 0 := by simpa [okStrField, pyTruthy] using h
    simp [pyOr, pyTruthy, this]
  | arr xs =>
    have : xs = [] := by simpa [okStrField, pyTruthy, List.isEmpty_iff] using h
    simp [pyOr, pyTruthy, this]
  | obj kvs =>
    have : kvs = [] := by simpa [okStrField, pyTruthy, List.isEmpty_iff] using h
    simp [pyOr, pyTruthy, this]

/-- listField_cases: a well-typed list field, after the (v or []) default,
is some list. -/
theorem listField_cases {v : JsonVal} (h : okListField v = true) :
    ∃ xs, pyOr v (JsonVal.arr []) = JsonVal.arr xs := by
  cases v with
  | arr xs =>
    by_cases hs : xs = [] <;> simp [pyOr, pyTruthy, hs]
  | null => exact ⟨[], rfl⟩
  | bool b => cases b <;> simp_all [okListField, pyTruthy, pyOr]
  | num n =>
    have : n = 0 := by simpa [okListField, pyTruthy] using h
    simp [pyOr, pyTruthy, this]
  | str s =>
    have : s = "" := by simpa [okListField, pyTruthy] using h
    simp [pyOr, pyTruthy, this]
  | obj kvs =>
    have : kvs = [] := by simpa [okListField, pyTruthy, List.isEmpty_iff] using h
    simp [pyOr, pyTruthy, this]

/-- specPlatform is the normalized platform filter of a binding, written
from the claim text: the trimmed string value after the empty-string
default. -/
def specPlatform (b : PyDict) : String :=
  match pyOr (dictGet b "platform") (JsonVal.str "") with
  | JsonVal.str s => pyStrip s
  | _ => ""

/-- specScope is the normalized scope of a binding, written from the claim
text: the trimmed, lowercased string value after the default all. -/
def specScope (b : PyDict) : String :=
  match pyOr (dictGet b "scope") (JsonVal.str "all") with
  | JsonVal.str s => pyLower (pyStrip s)
  | _ => ""

/-- specTargetIds is the trimmed target id list of a binding, written from
the claim text. -/
def specTargetIds (b : PyDict) : List String :=
  match pyOr (dictGet b "target_ids") (JsonVal.arr []) with
  | JsonVal.arr xs => xs.map (fun x => pyStrip (pyStr x))
  | _ => []

/-- specBindingMatches is the matching condition exactly as the claim
states it: platform filter empty or equal, and then by scope — group needs
a non-empty group id among the trimmed target ids, private needs a
non-empty sender id among them, all needs an empty target id list. -/
def specBindingMatches (b : PyDict) (platform senderId groupId : String) : Bool :=
  (specPlatform b == "" || specPlatform b == platform) &&
  ((specScope b == "group" && groupId != "" && (specTargetIds b).contains groupId) ||
   (specScope b == "private" && senderId != "" && (specTargetIds b).contains senderId) ||
   (specScope b == "all" && (specTargetIds b).isEmpty))

/-- specResolve is the resolution the claim describes: the strategy_key of
the first matching binding in configured order, else the configured
default key. -/
def specResolve (bs : List PyDict) (dflt : String)
    (platform senderId groupId : String) : JsonVal :=
  match bs.find? (fun b => specBindingMatches b platform senderId groupId) with
  | some b => dictGetD b "strategy_key" (JsonVal.str "")
  | none => JsonVal.str dflt

/-- bindingTry on a well-typed binding cannot raise and decides membership
exactly as specBindingMatches does. -/
theorem bindingTry_eq_of_wf (b : PyDict) (p sid gid : String) (hb : WFBinding b) :
    bindingTry b p sid gid = Except.ok (
      if specBindingMatches b p sid gid
      then some (dictGetD b "strategy_key" (JsonVal.str ""))
      else none) := by
  obtain ⟨h1, h2, h3⟩ := hb
  obtain ⟨sp, hsp⟩ := strField_cases "" h1
  obtain ⟨sc, hsc⟩ := strField_cases "all" h2
  obtain ⟨ts, hts⟩ := listField_cases h3
  have espec : specPlatform b = pyStrip sp := by simp [specPlatform, hsp]
  have escope : specScope b = pyLower (pyStrip sc) := by simp [specScope, hsc]
  have eids : specTargetIds b = ts.map (fun x => pyStrip (pyStr x)) := by
    simp [specTargetIds, hts]
  unfold bindingTry
  rw [hsp, hsc, hts]
  simp only [pyStripAttr, pyIter, bind, Except.bind, pure, Except.pure,
    specBindingMatches, espec, escope, eids]
  set P := pyStrip sp with hP
  set S := pyLower (pyStrip sc) with hS
  set I := ts.map (fun x => pyStrip (pyStr x)) with hI
  by_cases hpe : P = ""
  · simp [hpe]
    by_cases hg : S = "group" <;> by_cases hp : S = "private" <;>
      by_cases ha : S = "all" <;>
      simp_all <;> by_cases h5 : gid = "" <;> by_cases h6 : sid = "" <;>
      by_cases h7 : I.contains gid <;> by_cases h8 : I.contains sid <;>
      by_cases h9 : I.isEmpty <;> simp_all
  · by_cases hpp : P = p
    · simp [hpe, hpp]
      by_cases hg : S = "group" <;> by_cases hp : S = "private" <;>
        by_cases ha : S = "all" <;>
        simp_all <;> by_cases h5 : gid = "" <;> by_cases h6 : sid = "" <;>
        by_cases h7 : I.contains gid <;> by_cases h8 : I.contains sid <;>
        by_cases h9 : I.isEmpty <;> simp_all
    · simp [hpe, hpp]

/-- matchBindingGo on well-typed bindings is the first-match scan of
specResolve. -/
theorem matchBindingGo_eq_specResolve (dflt p sid gid : String)
    (bs : List PyDict) (hwf : ∀ b ∈ bs, WFBinding b) :
    matchBindingGo dflt p sid gid bs = specResolve bs dflt p sid gid := by
  induction bs with
  | nil => rfl
  | cons b rest ih =>
    have hb := hwf b (List.mem_cons_self b rest)
    have hr : ∀ x ∈ rest, WFBinding x := fun x hx => hwf x (List.mem_cons_of_mem _ hx)
    by_cases hm : specBindingMatches b p sid gid = true
    · simp [matchBindingGo, bindingTry_eq_of_wf b p sid gid hb, hm, specResolve,
        List.find?_cons, ih hr]
    · simp only [Bool.not_eq_true] at hm
      simp [matchBindingGo, bindingTry_eq_of_wf b p sid gid hb, hm, specResolve,
        List.find?_cons, ih hr]

/-- C1: binding resolution is order-sensitive and first-match-wins.  On any
well-typed binding list and any resolved identity, _match_binding returns
the strategy_key of the first binding in configured list order that matches
(platform filter empty or equal; scope group: non-empty group id among the
trimmed target ids; scope private: non-empty sender id among them; scope
all: empty target id list), and the configured default strategy key when no
binding matches — which is exactly specResolve over the stripped identity
facts. -/
theorem matchBinding_first_match (bs : List PyDict) (dflt p sid gid : String)
    (hwf : ∀ b ∈ bs, WFBinding b) :
    matchBinding bs dflt p sid gid =
      specResolve bs dflt (pyStrip p) (pyStrip sid) (pyStrip gid) :=
  matchBindingGo_eq_specResolve dflt (pyStrip p) (pyStrip sid) (pyStrip gid) bs hwf

/-- Witness for C1 at a concrete store: a group binding followed by a
catch-all; the group binding matches first and wins. -/
theorem matchBinding_first_match_witness :
    matchBinding
        [[("scope", JsonVal.str "group"),
          ("target_ids", JsonVal.arr [JsonVal.str "100"]),
          ("strategy_key", JsonVal.str "k2")],
         [("scope", JsonVal.str "all"), ("strategy_key", JsonVal.str "k1")]]
        "dflt" "qq" " 5" "100 " =
      specResolve
        [[("scope", JsonVal.str "group"),
          ("target_ids", JsonVal.arr [JsonVal.str "100"]),
          ("strategy_key", JsonVal.str "k2")],
         [("scope", JsonVal.str "all"), ("strategy_key", JsonVal.str "k1")]]
        "dflt" (pyStrip "qq") (pyStrip " 5") (pyStrip "100 ") := by
  apply matchBinding_first_match
  intro b hb
  simp only [List.mem_cons, List.not_mem_nil, or_false] at hb
  rcases hb with rfl | rfl
  · exact ⟨rfl, rfl, rfl⟩
  · exact ⟨rfl, rfl, rfl⟩

/-- bindingTry on a binding whose scope normalizes to all and whose
target_ids is a nonempty list either skips (no match) or raises (and the
scan also skips). -/
theorem bindingTry_all_nonempty_skips (b : PyDict) (p sid gid scn : String)
    (ts : List JsonVal)
    (hsc : pyStripAttr (pyOr (dictGet b "scope") (JsonVal.str "all")) = Except.ok scn)
    (hall : pyLower scn = "all")
    (hts : dictGet b "target_ids" = JsonVal.arr ts)
    (hne : ts ≠ []) :
    bindingTry b p sid gid = Except.ok none ∨
      ∃ e, bindingTry b p sid gid = Except.error e := by
  have hids : pyIter (pyOr (dictGet b "target_ids") (JsonVal.arr [])) = Except.ok ts := by
    rw [hts]
    simp [pyOr, pyTruthy, List.isEmpty_iff, hne, pyIter]
  cases hpl : pyStripAttr (pyOr (dictGet b "platform") (JsonVal.str "")) with
  | error e =>
    right
    exact ⟨e, by unfold bindingTry; rw [hpl]; rfl⟩
  | ok bp =>
    left
    unfold bindingTry
    rw [hpl]
    simp only [bind, Except.bind, hsc, hids, hall]
    have hmap : (ts.map (fun x => pyStrip (pyStr x))).isEmpty = false := by
      cases ts with
      | nil => exact absurd rfl hne
      | cons a l => rfl
    by_cases hskip : (bp ≠ "" && bp ≠ p) = true <;>
      simp [hskip, hmap, pure, Except.pure]

/-- C4: a binding with scope all and a nonempty target id list never
matches: deleting it from the binding list does not change the result of
_match_binding, for every identity and every surrounding binding list. -/
theorem scope_all_nonempty_ids_never_matches
    (pre post : List PyDict) (b : PyDict) (dflt p sid gid scn : String)
    (ts : List JsonVal)
    (hsc : pyStripAttr (pyOr (dictGet b "scope") (JsonVal.str "all")) = Except.ok scn)
    (hall : pyLower scn = "all")
    (hts : dictGet b "target_ids" = JsonVal.arr ts)
    (hne : ts ≠ []) :
    matchBinding (pre ++ b :: post) dflt p sid gid =
      matchBinding (pre ++ post) dflt p sid gid := by
  unfold matchBinding
  induction pre with
  | nil =>
    simp only [List.nil_append]
    rcases bindingTry_all_nonempty_skips b (pyStrip p) (pyStrip sid) (pyStrip gid)
        scn ts hsc hall hts hne with h | ⟨e, h⟩ <;>
      simp [matchBindingGo, h]
  | cons a pre ih =>
    simp only [List.cons_append, matchBindingGo, List.append_eq]
    rw [ih]

/-- C4 witness: the misconfigured catch-all sits between a private binding
and a true catch-all; removing it changes nothing. -/
theorem scope_all_nonempty_ids_never_matches_witness :
    matchBinding
        [[("scope", JsonVal.str "private"),
          ("target_ids", JsonVal.arr [JsonVal.str "9"]),
          ("strategy_key", JsonVal.str "kp")],
         [("scope", JsonVal.str "all"),
          ("target_ids", JsonVal.arr [JsonVal.str "1"]),
          ("strategy_key", JsonVal.str "kx")],
         [("scope", JsonVal.str "all"), ("strategy_key", JsonVal.str "ka")]]
        "d" "x" "y" "z" =
      matchBinding
        [[("scope", JsonVal.str "private"),
          ("target_ids", JsonVal.arr [JsonVal.str "9"]),
          ("strategy_key", JsonVal.str "kp")],
         [("scope", JsonVal.str "all"), ("strategy_key", JsonVal.str "ka")]]
        "d" "x" "y" "z" :=
  scope_all_nonempty_ids_never_matches
    [[("scope", JsonVal.str "private"),
      ("target_ids", JsonVal.arr [JsonVal.str "9"]),
      ("strategy_key", JsonVal.str "kp")]]
    [[("scope", JsonVal.str "all"), ("strategy_key", JsonVal.str "ka")]]
    [("scope", JsonVal.str "all"),
     ("target_ids", JsonVal.arr [JsonVal.str "1"]),
     ("strategy_key", JsonVal.str "kx")]
    "d" "x" "y" "z" "all" [JsonVal.str "1"] rfl rfl rfl (by simp)

/-- WFStrategy states that one strategy dict is well typed in the sense the
claim about injection composition presumes: special_ids is a list or
absent-like, the two message fields are strings or absent-like. -/
def WFStrategy (st : PyDict) : Prop :=
  okListField (dictGet st "special_ids") = true ∧
  okStrField (dictGet st "message_for_special") = true ∧
  okStrField (dictGet st "message_for_others") = true

/-- specSpecialIds is the trimmed special id list of a strategy, written
from the claim text. -/
def specSpecialIds (st : PyDict) : List String :=
  match pyOr (dictGet st "special_ids") (JsonVal.arr []) with
  | JsonVal.arr xs => xs.map (fun x => pyStrip (pyStr x))
  | _ => []

/-- specMessage is the trimmed message text a strategy holds under the
given field name, written from the claim text. -/
def specMessage (st : PyDict) (field : String) : String :=
  match pyOr (dictGet st field) (JsonVal.str "") with
  | JsonVal.str s => pyStrip s
  | _ => ""

/-- C8: on a well-typed strategy, _build_injection returns the trimmed
special message tagged special exactly when the sender id is non-empty and
contained in the trimmed special id list, and otherwise the trimmed
general message tagged general.  The function never sees the binding scope
that selected the strategy, so the result is independent of it. -/
theorem buildInjection_variant_selection (st : PyDict) (sid : String)
    (h : WFStrategy st) :
    buildInjection st sid = Except.ok (
      if sid != "" && (specSpecialIds st).contains sid
      then (specMessage st "message_for_special", "special")
      else (specMessage st "message_for_others", "general")) := by
  obtain ⟨h1, h2, h3⟩ := h
  obtain ⟨ts, hts⟩ := listField_cases h1
  obtain ⟨ms, hms⟩ := strField_cases "" h2
  obtain ⟨mo, hmo⟩ := strField_cases "" h3
  have eids : specSpecialIds st = ts.map (fun x => pyStrip (pyStr x)) := by
    simp [specSpecialIds, hts]
  have ems : specMessage st "message_for_special" = pyStrip ms := by
    simp [specMessage, hms]
  have emo : specMessage st "message_for_others" = pyStrip mo := by
    simp [specMessage, hmo]
  unfold buildInjection
  rw [hts, hms, hmo]
  simp only [pyIter, pyStripAttr, bind, Except.bind, pure, Except.pure, eids, ems, emo]
  by_cases hsid : sid = ""
  · simp [hsid]
  · simp [hsid]
    split <;> rfl

/-- C8 witness: a padded special id matches the sender after trimming. -/
theorem buildInjection_variant_selection_witness :
    buildInjection
        [("special_ids", JsonVal.arr [JsonVal.str " 7 "]),
         ("message_for_special", JsonVal.str " S "),
         ("message_for_others", JsonVal.str "G")] "7" =
      Except.ok (
        if "7" != "" &&
            (specSpecialIds
              [("special_ids", JsonVal.arr [JsonVal.str " 7 "]),
               ("message_for_special", JsonVal.str " S "),
               ("message_for_others", JsonVal.str "G")]).contains "7"
        then (specMessage
              [("special_ids", JsonVal.arr [JsonVal.str " 7 "]),
               ("message_for_special", JsonVal.str " S "),
               ("message_for_others", JsonVal.str "G")] "message_for_special", "special")
        else (specMessage
              [("special_ids", JsonVal.arr [JsonVal.str " 7 "]),
               ("message_for_special", JsonVal.str " S "),
               ("message_for_others", JsonVal.str "G")] "message_for_others", "general")) :=
  buildInjection_variant_selection _ "7" ⟨rfl, rfl, rfl⟩

/-- C6: when the engine is enabled and resolution yields a strategy whose
injection text is non-empty, the new prompt is the old prompt, a newline
and the text when the normalized mode equals append, and the text, a
newline and the old prompt for every other mode value. -/
theorem injectGuard_mode_placement (eng : Engine) (ev : Event)
    (p t w m : String) (st : PyDict)
    (hen : eng.enabled = true)
    (hst : findStrategy eng.strategies
      (matchBinding eng.bindings eng.defaultKey ev.platform ev.senderId ev.groupId)
        = some st)
    (hbi : buildInjection st ev.senderId = Except.ok (t, w))
    (ht : t ≠ "")
    (hm : modeOf st = Except.ok m) :
    injectGuard eng ev (some p) =
      Except.ok (some (if m = "append" then p ++ "\n" ++ t else t ++ "\n" ++ p)) := by
  simp [injectGuard, hen, injectGuardTry, hst, hbi, ht, hm, applyMode,
    bind, Except.bind, pure, Except.pure]

/-- C6 witness: an append strategy extends an existing prompt below. -/
theorem injectGuard_mode_placement_witness :
    injectGuard
        { strategies :=
            [[("key", JsonVal.str "k1"), ("mode", JsonVal.str "append"),
              ("special_ids", JsonVal.arr [JsonVal.str "7"]),
              ("message_for_special", JsonVal.str "SPECIAL"),
              ("message_for_others", JsonVal.str "x")]]
          bindings := [], defaultKey := "k1", enabled := true, debugLog := false }
        { platform := "qq", senderId := "7", groupId := "" } (some "Hello") =
      Except.ok (some (if "append" = "append"
        then "Hello" ++ "\n" ++ "SPECIAL" else "SPECIAL" ++ "\n" ++ "Hello")) :=
  injectGuard_mode_placement _ _ "Hello" "SPECIAL" "special" "append"
    [("key", JsonVal.str "k1"), ("mode", JsonVal.str "append"),
     ("special_ids", JsonVal.arr [JsonVal.str "7"]),
     ("message_for_special", JsonVal.str "SPECIAL"),
     ("message_for_others", JsonVal.str "x")]
    rfl rfl rfl (by decide) rfl

/-- C7: the prompt is unchanged whenever the engine is disabled, or the
resolved strategy is None, or the composed injection text is empty. -/
theorem injectGuard_frame (eng : Engine) (ev : Event) (prompt : Option String)
    (h : eng.enabled = false ∨
      findStrategy eng.strategies
        (matchBinding eng.bindings eng.defaultKey ev.platform ev.senderId ev.groupId)
          = none ∨
      (∃ st w, findStrategy eng.strategies
          (matchBinding eng.bindings eng.defaultKey ev.platform ev.senderId ev.groupId)
            = some st ∧
        buildInjection st ev.senderId = Except.ok ("", w))) :
    injectGuard eng ev prompt = Except.ok prompt := by
  rcases h with h | h | ⟨st, w, hst, hbi⟩
  · simp [injectGuard, h]
  · by_cases hen : eng.enabled <;>
      simp [injectGuard, hen, injectGuardTry, h, pure, Except.pure]
  · by_cases hen : eng.enabled <;>
      simp [injectGuard, hen, injectGuardTry, hst, hbi,
        bind, Except.bind, pure, Except.pure]

/-- C7 witness: a disabled engine leaves the prompt alone even with a
matching strategy configured. -/
theorem injectGuard_frame_witness :
    injectGuard
        { strategies := [[("key", JsonVal.str "k1"),
            ("message_for_others", JsonVal.str "x")]]
          bindings := [], defaultKey := "k1", enabled := false, debugLog := false }
        { platform := "qq", senderId := "7", groupId := "" } (some "Hello") =
      Except.ok (some "Hello") :=
  injectGuard_frame _ _ (some "Hello") (Or.inl rfl)

/-- pyIter can only raise TypeError. -/
theorem pyIter_error {v : JsonVal} {e : PyErr}
    (h : pyIter v = Except.error e) : e = PyErr.typeError := by
  cases v <;> simp_all [pyIter]

/-- pyStripAttr can only raise AttributeError. -/
theorem pyStripAttr_error {v : JsonVal} {e : PyErr}
    (h : pyStripAttr v = Except.error e) : e = PyErr.attrError := by
  cases v <;> simp_all [pyStripAttr]

/-- buildInjection can only raise TypeError or AttributeError. -/
theorem buildInjection_error {st : PyDict} {sid : String} {e : PyErr}
    (h : buildInjection st sid = Except.error e) :
    e = PyErr.typeError ∨ e = PyErr.attrError := by
  unfold buildInjection at h
  cases hi : pyIter (pyOr (dictGet st "special_ids") (JsonVal.arr [])) with
  | error e2 =>
    rw [hi] at h
    simp only [bind, Except.bind] at h
    cases h
    exact Or.inl (pyIter_error hi)
  | ok xs =>
    rw [hi] at h
    simp only [bind, Except.bind] at h
    split at h
    · cases hm : pyStripAttr (pyOr (dictGet st "message_for_special") (JsonVal.str "")) with
      | error e2 =>
        rw [hm] at h
        simp only [bind, Except.bind] at h
        cases h
        exact Or.inr (pyStripAttr_error hm)
      | ok m =>
        rw [hm] at h
        simp [bind, Except.bind, pure, Except.pure] at h
    · cases hm : pyStripAttr (pyOr (dictGet st "message_for_others") (JsonVal.str "")) with
      | error e2 =>
        rw [hm] at h
        simp only [bind, Except.bind] at h
        cases h
        exact Or.inr (pyStripAttr_error hm)
      | ok m =>
        rw [hm] at h
        simp [bind, Except.bind, pure, Except.pure] at h

/-- modeOf can only raise AttributeError. -/
theorem modeOf_error {st : PyDict} {e : PyErr}
    (h : modeOf st = Except.error e) : e = PyErr.attrError := by
  unfold modeOf at h
  cases hm : pyStripAttr (pyOr (dictGet st "mode") (JsonVal.str "prepend")) with
  | error e2 =>
    rw [hm] at h
    simp only [bind, Except.bind] at h
    cases h
    exact pyStripAttr_error hm
  | ok m =>
    rw [hm] at h
    simp [bind, Except.bind, pure, Except.pure] at h

/-- injectGuardTry can only raise TypeError or AttributeError — both inside
the exception tuple the source catches. -/
theorem injectGuardTry_error {eng : Engine} {ev : Event}
    {prompt : Option String} {e : PyErr}
    (h : injectGuardTry eng ev prompt = Except.error e) :
    e = PyErr.typeError ∨ e = PyErr.attrError := by
  unfold injectGuardTry at h
  cases hf : findStrategy eng.strategies
      (matchBinding eng.bindings eng.defaultKey ev.platform ev.senderId ev.groupId) with
  | none =>
    rw [hf] at h
    simp [pure, Except.pure] at h
  | some st =>
    rw [hf] at h
    dsimp only at h
    cases hb : buildInjection st ev.senderId with
    | error e2 =>
      rw [hb] at h
      simp only [bind, Except.bind] at h
      cases h
      exact buildInjection_error hb
    | ok ti =>
      rw [hb] at h
      simp only [bind, Except.bind] at h
      split at h
      · simp [pure, Except.pure] at h
      · cases hm : modeOf st with
        | error e2 =>
          rw [hm] at h
          simp only [bind, Except.bind] at h
          cases h
          exact Or.inr (modeOf_error hm)
        | ok m =>
          rw [hm] at h
          simp [bind, Except.bind, pure, Except.pure] at h

/-- C2: the per-request hook never propagates an exception — for every
engine state, event and starting prompt it returns Except.ok — and
whenever its try body fails, the returned prompt is exactly the starting
prompt, never a partially mutated one. -/
theorem injectGuard_never_raises (eng : Engine) (ev : Event)
    (prompt : Option String) :
    (∃ p, injectGuard eng ev prompt = Except.ok p) ∧
    (∀ e, injectGuardTry eng ev prompt = Except.error e →
      injectGuard eng ev prompt = Except.ok prompt) := by
  by_cases hen : eng.enabled
  · cases ht : injectGuardTry eng ev prompt with
    | ok p =>
      refine ⟨⟨p, ?_⟩, ?_⟩
      · simp [injectGuard, hen, ht]
      · intro e he
        simp [ht] at he
    | error e =>
      have hcaught : (e = PyErr.keyError || e = PyErr.typeError ||
          e = PyErr.attrError) = true := by
        rcases injectGuardTry_error ht with rfl | rfl <;> simp
      refine ⟨⟨prompt, ?_⟩, ?_⟩
      · simp [injectGuard, hen, ht, hcaught]
      · intro e2 he2
        simp [injectGuard, hen, ht, hcaught]
  · refine ⟨⟨prompt, ?_⟩, ?_⟩ <;> simp [injectGuard, hen]

/-- C2 witness: a strategy whose mode field is an int makes the try body
raise AttributeError at the mode normalization step; the hook still
returns ok with the prompt untouched. -/
theorem injectGuard_never_raises_witness :
    injectGuard
        { strategies := [[("key", JsonVal.str "k1"), ("mode", JsonVal.num 5),
            ("message_for_others", JsonVal.str "x")]]
          bindings := [], defaultKey := "k1", enabled := true, debugLog := false }
        { platform := "qq", senderId := "7", groupId := "" } (some "Hello") =
      Except.ok (some "Hello") :=
  (injectGuard_never_raises _ _ (some "Hello")).2 PyErr.attrError rfl

/-- skipWs is the identity on a string whose first character is not JSON
whitespace. -/
theorem skipWs_cons_not_ws {c : Char} (l : List Char) (h : jsonWs c = false) :
    skipWs (c :: l) = c :: l := by
  simp [skipWs, List.dropWhile_cons, h]

/-- skipWs drops one leading space. -/
theorem skipWs_cons_space (l : List Char) : skipWs (' ' :: l) = skipWs l := by
  simp [skipWs, List.dropWhile_cons, jsonWs]

/-- pyStripChars is the identity when both ends are non-whitespace. -/
theorem pyStripChars_eq_self {l : List Char}
    (h1 : ∀ c, l.head? = some c → pyWs c = false)
    (h2 : ∀ c, l.getLast? = some c → pyWs c = false) :
    pyStripChars l = l := by
  cases l with
  | nil => rfl
  | cons c t =>
    have hc : pyWs c = false := h1 c rfl
    have hdrop : (c :: t).dropWhile pyWs = c :: t := by
      simp [List.dropWhile_cons, hc]
    unfold pyStripChars
    rw [hdrop]
    cases hlast : (c :: t).getLast? with
    | none => simp at hlast
    | some d =>
      have hd : pyWs d = false := h2 d hlast
      have hrev : (c :: t).reverse.head? = some d := by
        rw [List.head?_reverse]
        exact hlast
      cases hr : (c :: t).reverse with
      | nil => simp [hr] at hrev
      | cons d2 t2 =>
        rw [hr] at hrev
        simp at hrev
        subst hrev
        have hstep : List.dropWhile pyWs (d2 :: t2) = d2 :: t2 := by
          simp [List.dropWhile_cons, hd]
        rw [hstep, ← hr, List.reverse_reverse]

/-- Decimal digit characters are plain: not whitespace, and distinct from
every JSON structural character the parser dispatches on. -/
theorem digit_char_plain {c : Char} (h : c.isDigit = true) :
    jsonWs c = false ∧ pyWs c = false ∧ c ≠ '\x7b' ∧ c ≠ '[' ∧ c ≠ '"' ∧
      c ≠ 't' ∧ c ≠ 'f' ∧ c ≠ 'n' ∧ c ≠ '-' ∧ c ≠ ']' ∧ c ≠ '\x7d' ∧ c ≠ ',' := by
  simp [Char.isDigit] at h
  obtain ⟨h1, h2⟩ := h
  have hne : ∀ d : Char, ¬(48 ≤ d.val ∧ d.val ≤ 57) → c ≠ d := by
    intro d hd hc
    subst hc
    exact hd ⟨h1, h2⟩
  refine ⟨?_, ?_, hne '\x7b' (by decide), hne '[' (by decide), hne '"' (by decide),
    hne 't' (by decide), hne 'f' (by decide), hne 'n' (by decide),
    hne '-' (by decide), hne ']' (by decide), hne '\x7d' (by decide),
    hne ',' (by decide)⟩
  · simp [jsonWs, hne ' ' (by decide), hne '\t' (by decide),
      hne '\n' (by decide), hne '\r' (by decide)]
  · simp [pyWs, hne ' ' (by decide), hne '\t' (by decide),
      hne '\n' (by decide), hne '\r' (by decide),
      hne '\x0b' (by decide), hne '\x0c' (by decide)]

/-- digitCh facts for the digits zero through nine. -/
theorem digitCh_isDigit : ∀ m, m < 10 → (Char.ofNat (48 + m)).isDigit = true := by
  decide

/-- digitCh toNat is the digit value plus 48. -/
theorem digitCh_toNat : ∀ m, m < 10 → (Char.ofNat (48 + m)).toNat = 48 + m := by
  decide

/-- natChars is a nonempty digit string. -/
theorem natChars_shape (n : Nat) :
    (∀ c ∈ natChars n, c.isDigit = true) ∧ ∃ d t, natChars n = d :: t := by
  induction n using Nat.strong_induction_on with
  | _ n ih =>
    rw [natChars]
    by_cases h : n < 10
    · simp [h]
      exact digitCh_isDigit n h
    · have hlt : n / 10 < n := Nat.div_lt_self (by omega) (by omega)
      obtain ⟨hall, d, t, hdt⟩ := ih (n / 10) hlt
      refine ⟨?_, ?_⟩
      · simp [h]
        intro c hc
        rcases hc with hc | hc
        · exact hall c hc
        · rw [hc]
          exact digitCh_isDigit (n % 10) (Nat.mod_lt n (by omega))
      · simp [h, hdt]

/-- dumpChars always begins with a plain, non-structural character: never
whitespace and never a closing bracket, closing brace or comma. -/
theorem dump_head (j : JsonVal) :
    ∃ c t, dumpChars j = c :: t ∧ jsonWs c = false ∧ pyWs c = false ∧
      c ≠ ']' ∧ c ≠ '\x7d' ∧ c ≠ ',' := by
  cases j with
  | null => exact ⟨'n', _, rfl, by decide, by decide, by decide, by decide, by decide⟩
  | bool b =>
    cases b with
    | true => exact ⟨'t', _, rfl, by decide, by decide, by decide, by decide, by decide⟩
    | false => exact ⟨'f', _, rfl, by decide, by decide, by decide, by decide, by decide⟩
  | num n =>
    show ∃ c t, intChars n = c :: t ∧ _
    unfold intChars
    by_cases hn : n < 0
    · exact ⟨'-', natChars (-n).toNat, by simp [hn], by decide, by decide,
        by decide, by decide, by decide⟩
    · obtain ⟨hall, d, t, hdt⟩ := natChars_shape n.toNat
      obtain ⟨hws, hpws, -, -, -, -, -, -, -, hb1, hb2, hb3⟩ :=
        digit_char_plain (hall d (by rw [hdt]; exact List.mem_cons_self d t))
      exact ⟨d, t, by simp [hn, hdt], hws, hpws, hb1, hb2, hb3⟩
  | str s => exact ⟨'"', _, rfl, by decide, by decide, by decide, by decide, by decide⟩
  | arr xs =>
    cases xs with
    | nil => exact ⟨'[', _, rfl, by decide, by decide, by decide, by decide, by decide⟩
    | cons x t => exact ⟨'[', _, rfl, by decide, by decide, by decide, by decide, by decide⟩
  | obj kvs =>
    cases kvs with
    | nil => exact ⟨'\x7b', _, rfl, by decide, by decide, by decide, by decide, by decide⟩
    | cons p t => exact ⟨'\x7b', _, rfl, by decide, by decide, by decide, by decide, by decide⟩

/-- dumps of an object is already stripped (it starts with an opening brace
and ends with a closing brace). -/
theorem pyStrip_dumps_obj (kvs : List (String × JsonVal)) :
    pyStrip (dumps (JsonVal.obj kvs)) = dumps (JsonVal.obj kvs) := by
  cases kvs with
  | nil => rfl
  | cons p ps =>
    show String.mk (pyStripChars (dumpChars (JsonVal.obj (p :: ps)))) = _
    rw [pyStripChars_eq_self]
    · rfl
    · intro c hcv
      simp [dumpChars] at hcv
      rw [← hcv]
      decide
    · intro c hcv
      have : dumpChars (JsonVal.obj (p :: ps)) =
          ('\x7b' :: (dumpField p ++ dumpFields ps)) ++ ['\x7d'] := by
        simp [dumpChars]
      rw [this, List.getLast?_concat] at hcv
      simp at hcv
      rw [← hcv]
      decide

/-- dumps of a string literal is already stripped (it starts and ends with
a double quote). -/
theorem pyStrip_dumps_str (s : String) :
    pyStrip (dumps (JsonVal.str s)) = dumps (JsonVal.str s) := by
  show String.mk (pyStripChars (dumpChars (JsonVal.str s))) = _
  rw [pyStripChars_eq_self]
  · rfl
  · intro c hcv
    simp [dumpChars] at hcv
    rw [← hcv]
    decide
  · intro c hcv
    have : dumpChars (JsonVal.str s) = ('"' :: escChars s.data) ++ ['"'] := by
      simp [dumpChars]
    rw [this, List.getLast?_concat] at hcv
    simp at hcv
    rw [← hcv]
    decide

/-- dumps never is the empty string. -/
theorem dumps_ne_empty (j : JsonVal) : dumps j ≠ "" := by
  obtain ⟨c, t, hct, -⟩ := dump_head j
  simp [dumps, hct, String.ext_iff]

/-- hexDigitChar produces a hex digit whose value is the input, for inputs
below sixteen. -/
theorem hexDigitChar_spec : ∀ m, m < 16 →
    isHexDigit (hexDigitChar m) = true ∧ hexVal (hexDigitChar m) = m := by
  decide

/-- parseStrBody undoes escChars: parsing the escaped body followed by the
closing quote restores the original characters and leaves the rest. -/
theorem parseStrBody_escChars (cs : List Char) (rest : List Char) :
    parseStrBody (escChars cs ++ ('"' :: rest)) = some (cs, rest) := by
  induction cs with
  | nil =>
    show parseStrBody ([] ++ ('"' :: rest)) = _
    rw [List.nil_append, parseStrBody.eq_def]
    simp
  | cons c cs ih =>
    show parseStrBody ((escChar c ++ escChars cs) ++ ('"' :: rest)) = _
    rw [List.append_assoc]
    unfold escChar
    by_cases h1 : c = '"'
    · subst h1
      rw [if_pos rfl, List.cons_append, List.cons_append, List.nil_append,
        parseStrBody.eq_def]
      simp +decide [ih]
    · rw [if_neg h1]
      by_cases h2 : c = '\\'
      · subst h2
        rw [if_pos rfl, List.cons_append, List.cons_append, List.nil_append,
          parseStrBody.eq_def]
        simp +decide [ih]
      · rw [if_neg h2]
        by_cases h3 : c = '\n'
        · subst h3
          rw [if_pos rfl, List.cons_append, List.cons_append, List.nil_append,
            parseStrBody.eq_def]
          simp +decide [ih]
        · rw [if_neg h3]
          by_cases h4 : c = '\t'
          · subst h4
            rw [if_pos rfl, List.cons_append, List.cons_append, List.nil_append,
              parseStrBody.eq_def]
            simp +decide [ih]
          · rw [if_neg h4]
            by_cases h5 : c = '\r'
            · subst h5
              rw [if_pos rfl, List.cons_append, List.cons_append, List.nil_append,
                parseStrBody.eq_def]
              simp +decide [ih]
            · rw [if_neg h5]
              by_cases h6 : c = '\x08'
              · subst h6
                rw [if_pos rfl, List.cons_append, List.cons_append, List.nil_append,
                  parseStrBody.eq_def]
                simp +decide [ih]
              · rw [if_neg h6]
                by_cases h7 : c = '\x0c'
                · subst h7
                  rw [if_pos rfl, List.cons_append, List.cons_append, List.nil_append,
                    parseStrBody.eq_def]
                  simp +decide [ih]
                · rw [if_neg h7]
                  by_cases h8 : c.toNat < 32
                  · rw [if_pos h8]
                    have hq : c.toNat / 16 < 16 := by omega
                    have hmr : c.toNat % 16 < 16 := by omega
                    obtain ⟨hhex1, hval1⟩ := hexDigitChar_spec _ hq
                    obtain ⟨hhex2, hval2⟩ := hexDigitChar_spec _ hmr
                    have hx1 : c.toNat / 16 * 16 + c.toNat % 16 = c.toNat := by
                      omega
                    have hx2 : 16 * (c.toNat / 16) + c.toNat % 16 = c.toNat := by
                      omega
                    have h0 : hexVal '0' = 0 := by decide
                    rw [parseStrBody.eq_def]
                    simp +decide [hhex1, hhex2, hval1, hval2, ih, hx1, hx2, h0,
                      Char.ofNat_toNat]
                  · rw [if_neg h8, List.cons_append, List.nil_append,
                      parseStrBody.eq_def]
                    simp [h1, h2, h8, ih]

/-- numSafe says a remainder does not start with a digit, so a number
token just before it ends exactly there. -/
def numSafe (l : List Char) : Prop :=
  ∀ c, l.head? = some c → c.isDigit = false

/-- takeWhile and dropWhile split an all-digit prefix from a digit-free
remainder. -/
theorem split_digits (xs ys : List Char)
    (hall : ∀ x ∈ xs, x.isDigit = true) (hhead : numSafe ys) :
    (xs ++ ys).takeWhile Char.isDigit = xs ∧
      (xs ++ ys).dropWhile Char.isDigit = ys := by
  induction xs with
  | nil =>
    cases ys with
    | nil => exact ⟨rfl, rfl⟩
    | cons c t =>
      have := hhead c rfl
      simp [List.takeWhile_cons, List.dropWhile_cons, this]
  | cons x xs ih =>
    have hx := hall x (List.mem_cons_self x xs)
    have ih' := ih (fun y hy => hall y (List.mem_cons_of_mem _ hy))
    simp [List.takeWhile_cons, List.dropWhile_cons, hx, ih'.1, ih'.2]

/-- digitsToNat inverts natChars. -/
theorem digitsToNat_natChars (n : Nat) : digitsToNat (natChars n) = n := by
  induction n using Nat.strong_induction_on with
  | _ n ih =>
    rw [natChars]
    by_cases h : n < 10
    · simp [h, digitsToNat, List.foldl, digitCh_toNat n h]
    · rw [if_neg h]
      have hdiv : n / 10 < n := Nat.div_lt_self (by omega) (by omega)
      have ih' := ih (n / 10) hdiv
      unfold digitsToNat
      rw [List.foldl_append]
      unfold digitsToNat at ih'
      simp [List.foldl, ih', digitCh_toNat (n % 10) (Nat.mod_lt n (by omega))]
      omega

/-- parseNatPart inverts natChars when the remainder is digit-free. -/
theorem parseNatPart_natChars (n : Nat) (rest : List Char)
    (hrest : numSafe rest) :
    parseNatPart (natChars n ++ rest) = some (n, rest) := by
  obtain ⟨hall, d, t, hdt⟩ := natChars_shape n
  obtain ⟨htake, hdrop⟩ := split_digits (natChars n) rest hall hrest
  have hne : ((natChars n ++ rest).takeWhile Char.isDigit).isEmpty = false := by
    rw [htake, hdt]
    rfl
  unfold parseNatPart
  simp only [htake, hdrop, hne, Bool.false_eq_true, if_false, digitsToNat_natChars]
  rw [hdt]
  rfl

/-- parseNumToken inverts intChars when the remainder is digit-free. -/
theorem parseNumToken_intChars (n : Int) (rest : List Char)
    (hrest : numSafe rest) :
    parseNumToken (intChars n ++ rest) = some (JsonVal.num n, rest) := by
  unfold intChars
  by_cases hn : n < 0
  · rw [if_pos hn, List.cons_append, parseNumToken.eq_def]
    simp +decide [parseNatPart_natChars _ _ hrest]
    omega
  · rw [if_neg hn]
    obtain ⟨hall, d, t, hdt⟩ := natChars_shape n.toNat
    have hd := digit_char_plain (hall d (by rw [hdt]; exact List.mem_cons_self d t))
    rw [hdt, List.cons_append, parseNumToken.eq_def]
    simp only []
    rw [if_neg hd.2.2.2.2.2.2.2.2.1, ← List.cons_append, ← hdt,
      parseNatPart_natChars n.toNat rest hrest]
    simp [Int.toNat_of_nonneg (by omega : (0 : Int) ≤ n)]

mutual
/-- needFuel bounds the parser fuel consumed on the dump of a value. -/
def needFuel : JsonVal → Nat
  | JsonVal.arr (x :: xs) => 1 + needItems (x :: xs)
  | JsonVal.obj (p :: ps) => 1 + needFields (p :: ps)
  | _ => 1

/-- needItems bounds the fuel parseItems consumes on dumped items. -/
def needItems : List JsonVal → Nat
  | [] => 0
  | x :: xs => 1 + needFuel x + needItems xs

/-- needFields bounds the fuel parseFields consumes on dumped entries. -/
def needFields : List (String × JsonVal) → Nat
  | [] => 0
  | (_, v) :: ps => 1 + needFuel v + needFields ps
end

/-- dumpItemsCore is the item region of a dumped array, between the
brackets. -/
def dumpItemsCore : List JsonVal → List Char
  | [] => []
  | x :: xs => dumpChars x ++ dumpItems xs

/-- dumpFieldsCore is the entry region of a dumped object, between the
braces. -/
def dumpFieldsCore : List (String × JsonVal) → List Char
  | [] => []
  | p :: ps => dumpField p ++ dumpFields ps

/-- JsonVal.inductionOn is a structural induction principle giving
membership hypotheses for array elements and object values. -/
def JsonVal.inductionOn {motive : JsonVal → Prop}
    (hnull : motive JsonVal.null)
    (hbool : ∀ b, motive (JsonVal.bool b))
    (hnum : ∀ n, motive (JsonVal.num n))
    (hstr : ∀ s, motive (JsonVal.str s))
    (harr : ∀ xs, (∀ x ∈ xs, motive x) → motive (JsonVal.arr xs))
    (hobj : ∀ kvs, (∀ p ∈ kvs, motive p.2) → motive (JsonVal.obj kvs)) :
    ∀ j, motive j
  | JsonVal.null => hnull
  | JsonVal.bool b => hbool b
  | JsonVal.num n => hnum n
  | JsonVal.str s => hstr s
  | JsonVal.arr xs =>
      harr xs (fun x hx =>
        JsonVal.inductionOn hnull hbool hnum hstr harr hobj x)
  | JsonVal.obj kvs =>
      hobj kvs (fun p hp =>
        JsonVal.inductionOn hnull hbool hnum hstr harr hobj p.2)
termination_by j => sizeOf j
decreasing_by
  · have h1 := List.sizeOf_lt_of_mem hx
    simp only [JsonVal.arr.sizeOf_spec]
    omega
  · have h1 := List.sizeOf_lt_of_mem hp
    have h2 : sizeOf p.2 < sizeOf p := by
      obtain ⟨a, b⟩ := p
      simp only [Prod.mk.sizeOf_spec]
      omega
    simp only [JsonVal.obj.sizeOf_spec]
    omega

/-- numSafe holds for any remainder starting with a non-digit character. -/
theorem numSafe_cons {d : Char} (l : List Char) (hd : d.isDigit = false) :
    numSafe (d :: l) := by
  intro c hc
  simp at hc
  rw [← hc]
  exact hd

/-- ParseOk j says the parser restores j from its dump, given the fuel
bound and any digit-free remainder, at every extra fuel amount. -/
def ParseOk (j : JsonVal) : Prop :=
  ∀ (extra : Nat) (rest : List Char), numSafe rest →
    parseVal (needFuel j + extra) (dumpChars j ++ rest) = some (j, rest)

/-- parseItems restores a nonempty item list from its dumped region
followed by the closing bracket. -/
theorem parseItems_dump (x : JsonVal) (xs : List JsonVal)
    (hx : ParseOk x) (hxs : ∀ y ∈ xs, ParseOk y)
    (extra : Nat) (rest : List Char) :
    parseItems (needItems (x :: xs) + extra)
      (dumpItemsCore (x :: xs) ++ (']' :: rest)) = some (x :: xs, rest) := by
  induction xs generalizing x extra with
  | nil =>
    have harith : needItems [x] + extra = (needFuel x + extra) + 1 := by
      simp [needItems]
      omega
    rw [harith]
    have hx' := hx extra (']' :: rest) (numSafe_cons _ (by decide))
    simp +decide [parseItems, dumpItemsCore, dumpItems, hx', skipWs,
      List.dropWhile_cons]
  | cons y ys ih =>
    obtain ⟨cy, ty, hcy, hwsy, -, -, -, -⟩ := dump_head y
    have hsafe : numSafe (dumpItems (y :: ys) ++ (']' :: rest)) := by
      simp only [dumpItems, List.cons_append]
      exact numSafe_cons _ (by decide)
    have hx' := hx (needItems (y :: ys) + extra)
      (dumpItems (y :: ys) ++ (']' :: rest)) hsafe
    have ihy := ih y (hxs y (List.mem_cons_self y ys))
      (fun z hz => hxs z (List.mem_cons_of_mem _ hz)) (needFuel x + extra)
    have harith : needItems (x :: y :: ys) + extra =
        (needFuel x + (needItems (y :: ys) + extra)) + 1 := by
      simp [needItems]
      omega
    have harith2 : needFuel x + (needItems (y :: ys) + extra) =
        needItems (y :: ys) + (needFuel x + extra) := by
      omega
    rw [harith]
    simp only [dumpItemsCore, List.append_assoc] at ihy ⊢
    simp only [dumpItems, List.cons_append, List.append_assoc, hcy, harith2] at hx'
    simp only [hcy, List.cons_append] at ihy
    simp +decide [parseItems, harith2, hx', dumpItems, skipWs,
      List.dropWhile_cons, hcy, hwsy, ihy]

/-- parseFields restores a nonempty entry list from its dumped region
followed by the closing brace. -/
theorem parseFields_dump (p : String × JsonVal) (ps : List (String × JsonVal))
    (hp : ParseOk p.2) (hps : ∀ q ∈ ps, ParseOk q.2)
    (extra : Nat) (rest : List Char) :
    parseFields (needFields (p :: ps) + extra)
      (dumpFieldsCore (p :: ps) ++ ('\x7d' :: rest)) = some (p :: ps, rest) := by
  induction ps generalizing p extra with
  | nil =>
    obtain ⟨k, v⟩ := p
    obtain ⟨cv, tv, hcv, hwsv, -, -, -, -⟩ := dump_head v
    have harith : needFields [(k, v)] + extra = (needFuel v + extra) + 1 := by
      simp [needFields]
      omega
    rw [harith]
    have hp' := hp extra ('\x7d' :: rest) (numSafe_cons _ (by decide))
    simp only [hcv, List.cons_append, List.append_assoc] at hp'
    have hk : String.mk k.data = k := rfl
    simp +decide [parseFields, dumpFieldsCore, dumpField, dumpFields, skipWs,
      List.dropWhile_cons, parseStrBody_escChars, hcv, hwsv, hp', hk]
  | cons q qs ih =>
    obtain ⟨k, v⟩ := p
    obtain ⟨kq, vq⟩ := q
    obtain ⟨cv, tv, hcv, hwsv, -, -, -, -⟩ := dump_head v
    have hsafe : numSafe (dumpFields ((kq, vq) :: qs) ++ ('\x7d' :: rest)) := by
      simp only [dumpFields, List.cons_append]
      exact numSafe_cons _ (by decide)
    have hp' := hp (needFields ((kq, vq) :: qs) + extra)
      (dumpFields ((kq, vq) :: qs) ++ ('\x7d' :: rest)) hsafe
    have ihq := ih (kq, vq) (hps (kq, vq) (List.mem_cons_self _ qs))
      (fun z hz => hps z (List.mem_cons_of_mem _ hz)) (needFuel v + extra)
    have harith : needFields ((k, v) :: (kq, vq) :: qs) + extra =
        (needFuel v + (needFields ((kq, vq) :: qs) + extra)) + 1 := by
      simp [needFields]
      omega
    have harith2 : needFuel v + (needFields ((kq, vq) :: qs) + extra) =
        needFields ((kq, vq) :: qs) + (needFuel v + extra) := by
      omega
    rw [harith]
    simp only [dumpFieldsCore, List.append_assoc] at ihq ⊢
    simp only [dumpFields, dumpField, List.cons_append, List.append_assoc,
      hcv, harith2] at hp'
    simp only [dumpField, List.cons_append, List.append_assoc] at ihq
    have hk : String.mk k.data = k := rfl
    have hkq : String.mk kq.data = kq := rfl
    simp +decide [parseFields, harith2, hp', dumpFields, dumpField, skipWs,
      List.dropWhile_cons, parseStrBody_escChars, hcv, hwsv, ihq, hk, hkq]

/-- Every value round-trips: the parser restores any value from its dump,
with fuel at least needFuel, for any digit-free remainder. -/
theorem parseOk_all (j : JsonVal) : ParseOk j := by
  induction j using JsonVal.inductionOn with
  | hnull =>
    intro extra rest hrest
    rw [show needFuel JsonVal.null + extra = extra + 1 from by simp [needFuel]; omega]
    simp +decide [dumpChars, parseVal, skipWs, List.dropWhile_cons]
  | hbool b =>
    intro extra rest hrest
    rw [show needFuel (JsonVal.bool b) + extra = extra + 1 from by
      simp [needFuel]; omega]
    cases b <;> simp +decide [dumpChars, parseVal, skipWs, List.dropWhile_cons]
  | hnum n =>
    intro extra rest hrest
    rw [show needFuel (JsonVal.num n) + extra = extra + 1 from by
      simp [needFuel]; omega]
    have hnum' := parseNumToken_intChars n rest hrest
    by_cases hn : n < 0
    · simp only [intChars, if_pos hn, List.cons_append] at hnum'
      simp +decide [dumpChars, intChars, hn, parseVal, skipWs,
        List.dropWhile_cons, hnum']
    · obtain ⟨hall, d, t, hdt⟩ := natChars_shape n.toNat
      obtain ⟨hws, -, hq1, hq2, hq3, hq4, hq5, hq6, -, -, -, -⟩ :=
        digit_char_plain (hall d (by rw [hdt]; exact List.mem_cons_self d t))
      simp only [intChars, if_neg hn, hdt, List.cons_append] at hnum'
      simp +decide [dumpChars, intChars, hn, hdt, parseVal, skipWs,
        List.dropWhile_cons, hws, hq1, hq2, hq3, hq4, hq5, hq6, hnum']
  | hstr s =>
    intro extra rest hrest
    rw [show needFuel (JsonVal.str s) + extra = extra + 1 from by
      simp [needFuel]; omega]
    simp +decide [dumpChars, parseVal, skipWs, List.dropWhile_cons,
      parseStrBody_escChars]
  | harr xs hxs =>
    cases xs with
    | nil =>
      intro extra rest hrest
      rw [show needFuel (JsonVal.arr []) + extra = extra + 1 from by
        simp [needFuel]; omega]
      simp +decide [dumpChars, parseVal, skipWs, List.dropWhile_cons]
    | cons x xs' =>
      intro extra rest hrest
      rw [show needFuel (JsonVal.arr (x :: xs')) + extra =
          (needItems (x :: xs') + extra) + 1 from by simp [needFuel]; omega]
      obtain ⟨cx, tx, hcx, hwsx, -, hbx, -, -⟩ := dump_head x
      have hitems := parseItems_dump x xs' (hxs x (List.mem_cons_self x xs'))
        (fun y hy => hxs y (List.mem_cons_of_mem _ hy)) extra rest
      simp only [dumpItemsCore, List.append_assoc, hcx, List.cons_append] at hitems
      simp +decide [dumpChars, parseVal, skipWs, List.dropWhile_cons, hcx,
        hwsx, hbx, hitems, List.append_assoc]
  | hobj kvs hkvs =>
    cases kvs with
    | nil =>
      intro extra rest hrest
      rw [show needFuel (JsonVal.obj []) + extra = extra + 1 from by
        simp [needFuel]; omega]
      simp +decide [dumpChars, parseVal, skipWs, List.dropWhile_cons]
    | cons p ps =>
      intro extra rest hrest
      rw [show needFuel (JsonVal.obj (p :: ps)) + extra =
          (needFields (p :: ps) + extra) + 1 from by simp [needFuel]; omega]
      obtain ⟨k0, v0⟩ := p
      have hflds := parseFields_dump (k0, v0) ps
        (hkvs (k0, v0) (List.mem_cons_self _ ps))
        (fun q hq => hkvs q (List.mem_cons_of_mem _ hq)) extra rest
      simp only [dumpFieldsCore, dumpField, List.append_assoc,
        List.cons_append] at hflds
      simp +decide [dumpChars, dumpField, parseVal, skipWs,
        List.dropWhile_cons, hflds, List.append_assoc]

/-- needItems is bounded by twice the dumped item-region length. -/
theorem needItems_le (xs : List JsonVal)
    (h : ∀ x ∈ xs, needFuel x ≤ 2 * (dumpChars x).length) :
    needItems xs ≤ 2 * (dumpItems xs).length := by
  induction xs with
  | nil => simp [needItems, dumpItems]
  | cons x xs ih =>
    have hx := h x (List.mem_cons_self x xs)
    have ih' := ih (fun y hy => h y (List.mem_cons_of_mem _ hy))
    simp only [needItems, dumpItems, List.length_cons, List.length_append]
    omega

/-- needFields is bounded by twice the dumped entry-region length. -/
theorem needFields_le (ps : List (String × JsonVal))
    (h : ∀ q ∈ ps, needFuel q.2 ≤ 2 * (dumpChars q.2).length) :
    needFields ps ≤ 2 * (dumpFields ps).length := by
  induction ps with
  | nil => simp [needFields, dumpFields]
  | cons p ps ih =>
    obtain ⟨k, v⟩ := p
    have hv : needFuel v ≤ 2 * (dumpChars v).length :=
      h (k, v) (List.mem_cons_self _ ps)
    have ih' := ih (fun q hq => h q (List.mem_cons_of_mem _ hq))
    simp only [needFields, dumpFields, dumpField, List.length_cons,
      List.length_append]
    omega

/-- needFuel is bounded by twice the dump length, so the fuel loads
supplies always suffices. -/
theorem needFuel_le (j : JsonVal) : needFuel j ≤ 2 * (dumpChars j).length := by
  induction j using JsonVal.inductionOn with
  | hnull =>
    simp only [needFuel, dumpChars, List.length_cons, List.length_nil]
    omega
  | hbool b =>
    cases b <;>
      (simp only [needFuel, dumpChars, List.length_cons, List.length_nil]; omega)
  | hnum n =>
    obtain ⟨c, t, hct, -⟩ := dump_head (JsonVal.num n)
    have h1 : 1 ≤ (dumpChars (JsonVal.num n)).length := by
      rw [hct]
      simp
    have h2 : needFuel (JsonVal.num n) = 1 := by simp [needFuel]
    omega
  | hstr s =>
    have h2 : needFuel (JsonVal.str s) = 1 := by simp [needFuel]
    simp only [dumpChars, List.length_cons, List.length_append, h2]
    omega
  | harr xs hxs =>
    cases xs with
    | nil =>
      simp only [needFuel, dumpChars, List.length_cons, List.length_nil]
      omega
    | cons x xs' =>
      have hx := hxs x (List.mem_cons_self x xs')
      have htail := needItems_le xs' (fun y hy => hxs y (List.mem_cons_of_mem _ hy))
      simp only [needFuel, needItems, dumpChars, List.length_cons,
        List.length_append]
      omega
  | hobj kvs hkvs =>
    cases kvs with
    | nil =>
      simp only [needFuel, dumpChars, List.length_cons, List.length_nil]
      omega
    | cons p ps =>
      obtain ⟨k, v⟩ := p
      have hv : needFuel v ≤ 2 * (dumpChars v).length :=
        hkvs (k, v) (List.mem_cons_self _ ps)
      have htail := needFields_le ps (fun q hq => hkvs q (List.mem_cons_of_mem _ hq))
      simp only [needFuel, needFields, dumpChars, dumpField, List.length_cons,
        List.length_append]
      omega

/-- loads inverts dumps: the model of json.loads restores any value from
its json.dumps serialization. -/
theorem loads_dumps (j : JsonVal) : loads (dumps j) = some j := by
  have hb := needFuel_le j
  have hsafe : numSafe ([] : List Char) := by
    intro c hc
    simp at hc
  have h := parseOk_all j (2 * (dumpChars j).length + 2 - needFuel j) [] hsafe
  rw [List.append_nil] at h
  have harith : needFuel j + (2 * (dumpChars j).length + 2 - needFuel j) =
      2 * (dumpChars j).length + 2 := by omega
  rw [harith] at h
  unfold loads
  rw [show (dumps j).data = dumpChars j from rfl, h]
  simp [skipWs]

/-- One decode round on a string that parses as an object returns it. -/
theorem decodeLoop_succ_obj (r : Nat) (cur : String)
    (kvs : List (String × JsonVal)) (h : loads cur = some (JsonVal.obj kvs)) :
    decodeLoop (r + 1) cur = some kvs := by
  simp [decodeLoop, h]

/-- One decode round on a string that parses as a string strips it and
continues with one round less. -/
theorem decodeLoop_succ_str (r : Nat) (cur t : String)
    (h : loads cur = some (JsonVal.str t)) :
    decodeLoop (r + 1) cur = decodeLoop r (pyStrip t) := by
  simp [decodeLoop, h]

/-- Exhausted rounds return None. -/
theorem decodeLoop_zero (cur : String) : decodeLoop 0 cur = none := by
  simp [decodeLoop]

/-- C3: for every JSON object, the tolerant string decoder recovers the
object from its double-JSON-encoded form within the 2-round limit, while
on the triple-JSON-encoded form it returns None (after a warning in the
source) instead of raising. -/
theorem decode_double_encoded_ok_triple_encoded_none
    (kvs : List (String × JsonVal)) :
    decodeJsonObjFromStr (dumps (JsonVal.str (dumps (JsonVal.obj kvs)))) 2
        = some kvs ∧
    decodeJsonObjFromStr
        (dumps (JsonVal.str (dumps (JsonVal.str (dumps (JsonVal.obj kvs)))))) 2
        = none := by
  constructor
  · unfold decodeJsonObjFromStr
    rw [pyStrip_dumps_str, if_neg (dumps_ne_empty _)]
    rw [show (2 : Nat) = 1 + 1 from rfl,
      decodeLoop_succ_str 1 _ _ (loads_dumps (JsonVal.str (dumps (JsonVal.obj kvs)))),
      pyStrip_dumps_obj,
      show (1 : Nat) = 0 + 1 from rfl,
      decodeLoop_succ_obj 0 _ kvs (loads_dumps (JsonVal.obj kvs))]
  · unfold decodeJsonObjFromStr
    rw [pyStrip_dumps_str, if_neg (dumps_ne_empty _)]
    rw [show (2 : Nat) = 1 + 1 from rfl,
      decodeLoop_succ_str 1 _ _
        (loads_dumps (JsonVal.str (dumps (JsonVal.str (dumps (JsonVal.obj kvs)))))),
      pyStrip_dumps_str,
      show (1 : Nat) = 0 + 1 from rfl,
      decodeLoop_succ_str 0 _ _
        (loads_dumps (JsonVal.str (dumps (JsonVal.obj kvs)))),
      decodeLoop_zero]
